import Mathlib

/-!
Verification of the `TextHighlighter` widget
(`src/communicate-assist/src/app/components/TextHighlighter.tsx`).

Strings are modelled as `List Char`; the JS helpers `toLowerCase`,
`substring` and `indexOf` are embedded explicitly.  The `while` loop of
`getHighlightedSegments` is embedded with an explicit fuel parameter so
that termination (and non-termination) of the source loop becomes a
provable statement: the loop result is `none` exactly when the given
fuel is exhausted before the loop guard fails.
-/

namespace CommAssist

/-- A text segment produced by `getHighlightedSegments`:
`{ text: ..., highlight: ... }` in the source. -/
structure Segment where
  text : List Char
  highlight : Bool
deriving DecidableEq, Repr

/-- JS `String.prototype.toLowerCase`, modelled per character. -/
def toLowerStr (s : List Char) : List Char :=
  s.map Char.toLower

/-- `needle` matches at the head of `hay` (helper for `indexOf`). -/
def strMatchAt : List Char → List Char → Bool
  | [], _ => true
  | _ :: _, [] => false
  | a :: as, b :: bs => a == b && strMatchAt as bs

/-- JS `String.prototype.substring(a, b)`: both ends are clamped to
`[0, length]` and swapped when out of order. -/
def jsSubstring (s : List Char) (a b : Nat) : List Char :=
  let a1 := min a s.length
  let b1 := min b s.length
  (s.take (max a1 b1)).drop (min a1 b1)

/-- JS `hay.indexOf(needle, start)`: the first index `i ≥ min start hay.length`
at which `needle` occurs in `hay` (`none` models the JS result `-1`).
For the empty needle this returns the clamped `start`, as in JS. -/
def jsIndexOfFrom (hay needle : List Char) (start : Nat) : Option Nat :=
  (List.range (hay.length + 1)).find? fun i =>
    decide (min start hay.length ≤ i) && strMatchAt needle (hay.drop i)

/-- The tail of the loop in `getHighlightedSegments` (source lines 58-64):
after the `while` loop exits, the remaining unmatched text (if any) is
appended. -/
def finishSegs (inputText : List Char) (currentIndex : Nat) (segments : List Segment) :
    List Segment :=
  if currentIndex < inputText.length then
    segments ++ [⟨jsSubstring inputText currentIndex inputText.length, false⟩]
  else segments

/-- The `while` loop of `getHighlightedSegments` (source lines 36-56), with
explicit fuel.  `none` means the fuel ran out before the loop guard
`matchIndex !== -1 && currentIndex <= inputText.length` failed. -/
def segLoop (inputText lowerInput lowerComparison : List Char) :
    Nat → Nat → Option Nat → List Segment → Option (List Segment)
  | 0, _, _, _ => none
  | fuel + 1, currentIndex, matchIdx, segments =>
    match matchIdx with
    | some matchIndex =>
      if currentIndex ≤ inputText.length then
        let segs1 :=
          if currentIndex < matchIndex then
            segments ++ [⟨jsSubstring inputText currentIndex matchIndex, false⟩]
          else segments
        let segs2 :=
          segs1 ++ [⟨jsSubstring inputText matchIndex (matchIndex + lowerComparison.length), true⟩]
        let nextIndex := matchIndex + lowerComparison.length
        segLoop inputText lowerInput lowerComparison fuel nextIndex
          (jsIndexOfFrom lowerInput lowerComparison nextIndex) segs2
      else some (finishSegs inputText currentIndex segments)
    | none => some (finishSegs inputText currentIndex segments)

/-- `getHighlightedSegments` (source lines 24-67).  The fuel bounds the
number of iterations of the inner `while` loop; `none` means the loop ran
longer than the fuel allows. -/
def getHighlightedSegments (inputText comparisonText : List Char) (fuel : Nat) :
    Option (List Segment) :=
  if inputText = [] then some [⟨[], false⟩]
  else
    let lowerInput := toLowerStr inputText
    let lowerComparison := toLowerStr comparisonText
    segLoop inputText lowerInput lowerComparison fuel 0
      (jsIndexOfFrom lowerInput lowerComparison 0) []

example :
    getHighlightedSegments "ababab".data "ab".data 10 =
      some [⟨"ab".data, true⟩, ⟨"ab".data, true⟩, ⟨"ab".data, true⟩] := by decide

example :
    getHighlightedSegments "Example text".data "example".data 14 =
      some [⟨"Example".data, true⟩, ⟨" text".data, false⟩] := by decide

example :
    getHighlightedSegments "hello world".data "xyz".data 13 =
      some [⟨"hello world".data, false⟩] := by decide

example : getHighlightedSegments "".data "x".data 2 = some [⟨[], false⟩] := by decide

example : getHighlightedSegments "a".data "".data 5 = none := by decide

/-! ### Helper lemmas about the string primitives -/

theorem strMatchAt_take : ∀ ns hs : List Char, strMatchAt ns hs = true →
    ns.length ≤ hs.length ∧ hs.take ns.length = ns
  | [], hs, _ => by simp
  | _ :: _, [], h => by simp [strMatchAt] at h
  | a :: as, b :: bs, h => by
    simp only [strMatchAt, Bool.and_eq_true, beq_iff_eq] at h
    obtain ⟨rfl, h2⟩ := h
    obtain ⟨h3, h4⟩ := strMatchAt_take as bs h2
    refine ⟨Nat.succ_le_succ h3, ?_⟩
    simpa using h4

theorem jsIndexOfFrom_some {hay needle : List Char} {start i : Nat}
    (h : jsIndexOfFrom hay needle start = some i) :
    min start hay.length ≤ i ∧ i ≤ hay.length ∧ strMatchAt needle (hay.drop i) = true := by
  unfold jsIndexOfFrom at h
  have hp := List.find?_some h
  have hm := List.mem_of_find?_eq_some h
  simp only [Bool.and_eq_true, decide_eq_true_eq] at hp
  have hr := List.mem_range.mp hm
  exact ⟨hp.1, by omega, hp.2⟩

theorem jsIndexOfFrom_nil_zero (hay : List Char) : jsIndexOfFrom hay [] 0 = some 0 := by
  unfold jsIndexOfFrom
  rw [List.range_succ_eq_map, List.find?_cons_of_pos]
  simp [strMatchAt]

theorem jsSubstring_eq {s : List Char} {a b : Nat} (hab : a ≤ b) (hb : b ≤ s.length) :
    jsSubstring s a b = (s.take b).drop a := by
  simp only [jsSubstring, Nat.min_eq_left (le_trans hab hb), Nat.min_eq_left hb,
    Nat.max_eq_right hab, Nat.min_eq_left hab]

theorem take_concat_slice {s : List Char} {a b : Nat} (hab : a ≤ b) :
    s.take a ++ (s.take b).drop a = s.take b := by
  conv_rhs => rw [← List.take_append_drop a (s.take b)]
  rw [List.take_take, Nat.min_eq_left hab]

theorem slice_of_match {ls lc : List Char} {mi : Nat} (hmi : mi ≤ ls.length)
    (h : strMatchAt lc (ls.drop mi) = true) :
    (ls.take (mi + lc.length)).drop mi = lc ∧ mi + lc.length ≤ ls.length := by
  obtain ⟨hlen, htake⟩ := strMatchAt_take _ _ h
  rw [List.length_drop] at hlen
  refine ⟨?_, by omega⟩
  rw [List.drop_take]
  have h2 : mi + lc.length - mi = lc.length := by omega
  rw [h2, htake]

theorem slice_length {s : List Char} {a b : Nat} (hb : b ≤ s.length) :
    ((s.take b).drop a).length = b - a := by
  rw [List.length_drop, List.length_take, Nat.min_eq_left hb]

/-! ### Loop invariants of `getHighlightedSegments` -/

theorem finishSegs_props (s lc : List Char) (ci : Nat) (segs : List Segment)
    (hci : ci ≤ s.length)
    (hjoin : (segs.map Segment.text).flatten = s.take ci)
    (hfid : ∀ seg ∈ segs, seg.highlight = true → toLowerStr seg.text = lc)
    (hne : lc ≠ [] → ∀ seg ∈ segs, seg.text ≠ []) :
    ((finishSegs s ci segs).map Segment.text).flatten = s ∧
    (∀ seg ∈ finishSegs s ci segs, seg.highlight = true → toLowerStr seg.text = lc) ∧
    (lc ≠ [] → ∀ seg ∈ finishSegs s ci segs, seg.text ≠ []) := by
  unfold finishSegs
  by_cases h : ci < s.length
  · rw [if_pos h]
    have hsub : jsSubstring s ci s.length = s.drop ci := by
      rw [jsSubstring_eq (le_of_lt h) (le_refl _), List.take_length]
    refine ⟨?_, ?_, ?_⟩
    · rw [List.map_append, List.flatten_append, hjoin]
      simp only [List.map_cons, List.map_nil, List.flatten_cons, List.flatten_nil,
        List.append_nil, hsub]
      exact List.take_append_drop ci s
    · intro seg hmem hh
      rcases List.mem_append.mp hmem with h1 | h1
      · exact hfid seg h1 hh
      · simp only [List.mem_singleton] at h1
        subst h1
        simp at hh
    · intro hlc seg hmem
      rcases List.mem_append.mp hmem with h1 | h1
      · exact hne hlc seg h1
      · simp only [List.mem_singleton] at h1
        subst h1
        simp only [hsub]
        apply List.ne_nil_of_length_pos
        rw [List.length_drop]
        omega
  · rw [if_neg h]
    have hcieq : ci = s.length := by omega
    rw [hcieq] at hjoin
    rw [List.take_length] at hjoin
    exact ⟨hjoin, hfid, hne⟩

theorem segLoop_inv (s lc : List Char) :
    ∀ (fuel ci : Nat) (mIdx : Option Nat) (segs out : List Segment),
      ci ≤ s.length →
      (segs.map Segment.text).flatten = s.take ci →
      (∀ seg ∈ segs, seg.highlight = true → toLowerStr seg.text = lc) →
      (lc ≠ [] → ∀ seg ∈ segs, seg.text ≠ []) →
      (∀ mi, mIdx = some mi →
        ci ≤ mi ∧ mi ≤ s.length ∧ strMatchAt lc ((toLowerStr s).drop mi) = true) →
      segLoop s (toLowerStr s) lc fuel ci mIdx segs = some out →
      ((out.map Segment.text).flatten = s ∧
        (∀ seg ∈ out, seg.highlight = true → toLowerStr seg.text = lc) ∧
        (lc ≠ [] → ∀ seg ∈ out, seg.text ≠ [])) := by
  intro fuel
  induction fuel with
  | zero =>
    intro ci mIdx segs out _ _ _ _ _ hloop
    simp [segLoop] at hloop
  | succ fuel ih =>
    intro ci mIdx segs out hci hjoin hfid hne hmidx hloop
    cases mIdx with
    | none =>
      simp only [segLoop, Option.some.injEq] at hloop
      subst hloop
      exact finishSegs_props s lc ci segs hci hjoin hfid hne
    | some mi =>
      obtain ⟨hcmi, hmis, hmatch⟩ := hmidx mi rfl
      have hLs : (toLowerStr s).length = s.length := List.length_map s Char.toLower
      obtain ⟨hslice, hmiL⟩ := slice_of_match (by rwa [hLs]) hmatch
      rw [hLs] at hmiL
      have hlcLen : (toLowerStr lc).length = lc.length := List.length_map lc Char.toLower
      simp only [segLoop] at hloop
      rw [if_pos hci] at hloop
      -- lowered comparison slice of the original input, lower-cased, is lc
      have ht2 : toLowerStr (jsSubstring s mi (mi + lc.length)) = lc := by
        rw [jsSubstring_eq (Nat.le_add_right _ _) hmiL]
        simp only [toLowerStr] at hslice ⊢
        rw [List.map_drop, List.map_take]
        exact hslice
      have ht2len : (jsSubstring s mi (mi + lc.length)).length = lc.length := by
        rw [jsSubstring_eq (Nat.le_add_right _ _) hmiL, slice_length hmiL]
        omega
      refine ih (mi + lc.length) _ _ out hmiL ?_ ?_ ?_ ?_ hloop
      · -- concatenation invariant
        have hj1 : ((if ci < mi then segs ++ [⟨jsSubstring s ci mi, false⟩]
            else segs).map Segment.text).flatten = s.take mi := by
          by_cases hlt : ci < mi
          · rw [if_pos hlt, List.map_append, List.flatten_append, hjoin]
            simp only [List.map_cons, List.map_nil, List.flatten_cons, List.flatten_nil,
              List.append_nil]
            rw [jsSubstring_eq (le_of_lt hlt) hmis, take_concat_slice hcmi]
          · rw [if_neg hlt]
            have hceq : ci = mi := by omega
            rw [hjoin, hceq]
        rw [List.map_append, List.flatten_append, hj1]
        simp only [List.map_cons, List.map_nil, List.flatten_cons, List.flatten_nil,
          List.append_nil]
        rw [jsSubstring_eq (Nat.le_add_right _ _) hmiL,
          take_concat_slice (Nat.le_add_right mi lc.length)]
      · -- fidelity invariant
        intro seg hmem hh
        rcases List.mem_append.mp hmem with h1 | h1
        · by_cases hlt : ci < mi
          · rw [if_pos hlt] at h1
            rcases List.mem_append.mp h1 with h2 | h2
            · exact hfid seg h2 hh
            · simp only [List.mem_singleton] at h2
              subst h2
              simp at hh
          · rw [if_neg hlt] at h1
            exact hfid seg h1 hh
        · simp only [List.mem_singleton] at h1
          subst h1
          exact ht2
      · -- non-emptiness invariant
        intro hlc seg hmem
        rcases List.mem_append.mp hmem with h1 | h1
        · by_cases hlt : ci < mi
          · rw [if_pos hlt] at h1
            rcases List.mem_append.mp h1 with h2 | h2
            · exact hne hlc seg h2
            · simp only [List.mem_singleton] at h2
              subst h2
              apply List.ne_nil_of_length_pos
              rw [jsSubstring_eq (le_of_lt hlt) hmis, slice_length hmis]
              omega
          · rw [if_neg hlt] at h1
            exact hne hlc seg h1
        · simp only [List.mem_singleton] at h1
          subst h1
          apply List.ne_nil_of_length_pos
          rw [ht2len]
          exact List.length_pos.mpr hlc
      · -- the next `indexOf` result also satisfies the match invariant
        intro mi2 hmi2
        obtain ⟨hge, hle, hm⟩ := jsIndexOfFrom_some hmi2
        rw [hLs] at hge hle
        rw [Nat.min_eq_left hmiL] at hge
        exact ⟨hge, hle, hm⟩

theorem segLoop_term (s lc : List Char) (hlc : lc ≠ []) :
    ∀ (fuel ci : Nat) (mIdx : Option Nat) (segs : List Segment),
      ci ≤ s.length →
      (∀ mi, mIdx = some mi →
        ci ≤ mi ∧ mi ≤ s.length ∧ strMatchAt lc ((toLowerStr s).drop mi) = true) →
      s.length + 1 - ci < fuel →
      ∃ out, segLoop s (toLowerStr s) lc fuel ci mIdx segs = some out := by
  intro fuel
  induction fuel with
  | zero =>
    intro ci mIdx segs _ _ hmeas
    omega
  | succ fuel ih =>
    intro ci mIdx segs hci hmidx hmeas
    cases mIdx with
    | none => exact ⟨finishSegs s ci segs, by simp [segLoop]⟩
    | some mi =>
      obtain ⟨hcmi, hmis, hmatch⟩ := hmidx mi rfl
      have hLs : (toLowerStr s).length = s.length := List.length_map s Char.toLower
      obtain ⟨_, hmiL⟩ := slice_of_match (by rwa [hLs]) hmatch
      rw [hLs] at hmiL
      have hlpos : 0 < lc.length := List.length_pos.mpr hlc
      simp only [segLoop]
      rw [if_pos hci]
      apply ih (mi + lc.length) _ _ hmiL
      · intro mi2 hmi2
        obtain ⟨hge, hle, hm⟩ := jsIndexOfFrom_some hmi2
        rw [hLs] at hge hle
        rw [Nat.min_eq_left hmiL] at hge
        exact ⟨hge, hle, hm⟩
      · omega

/-- With a non-empty input and the empty comparison string, the loop state
never changes (`currentIndex` stays `0`, `indexOf` keeps returning `0`), so
the loop consumes every amount of fuel: the source loop never terminates. -/
theorem segLoop_empty_comparison (s hay : List Char) :
    ∀ (fuel : Nat) (segs : List Segment),
      segLoop s hay [] fuel 0 (some 0) segs = none := by
  intro fuel
  induction fuel with
  | zero => intro segs; simp [segLoop]
  | succ fuel ih =>
    intro segs
    simp only [segLoop, List.length_nil, Nat.add_zero, lt_self_iff_false, if_false,
      if_pos (Nat.zero_le s.length), jsIndexOfFrom_nil_zero]
    exact ih _

/-! ### Matched-segment intervals (source positions from prefix sums) -/

/-- Source-position intervals of the segments of a list, starting at `pos`:
each segment occupies `[start, start + length)` and consecutive segments
are adjacent (the positions are the prefix sums of the text lengths). -/
def segIntervals : Nat → List Segment → List (Nat × Nat × Bool)
  | _, [] => []
  | pos, seg :: rest =>
    (pos, pos + seg.text.length, seg.highlight) :: segIntervals (pos + seg.text.length) rest

/-- The `[start, end)` source intervals of the matched segments only. -/
def matchedIntervals (segs : List Segment) : List (Nat × Nat) :=
  (segIntervals 0 segs).filterMap fun t => if t.2.2 = true then some (t.1, t.2.1) else none

theorem segIntervals_start_le :
    ∀ (segs : List Segment) (pos : Nat) (t : Nat × Nat × Bool),
      t ∈ segIntervals pos segs → pos ≤ t.1 ∧ t.1 ≤ t.2.1
  | [], _, _, h => by simp [segIntervals] at h
  | seg :: rest, pos, t, h => by
    simp only [segIntervals, List.mem_cons] at h
    rcases h with h | h
    · subst h; simp
    · obtain ⟨h1, h2⟩ := segIntervals_start_le rest (pos + seg.text.length) t h
      exact ⟨by omega, h2⟩

theorem segIntervals_chained :
    ∀ (segs : List Segment) (pos : Nat),
      (segIntervals pos segs).Pairwise fun a b => a.2.1 ≤ b.1
  | [], _ => by simp [segIntervals]
  | seg :: rest, pos => by
    simp only [segIntervals, List.pairwise_cons]
    refine ⟨?_, segIntervals_chained rest (pos + seg.text.length)⟩
    intro t ht
    exact (segIntervals_start_le rest (pos + seg.text.length) t ht).1

theorem matchedIntervals_pairwise (segs : List Segment) :
    (matchedIntervals segs).Pairwise fun a b => a.2 ≤ b.1 := by
  unfold matchedIntervals
  refine List.Pairwise.filterMap _ ?_ (segIntervals_chained segs 0)
  intro a b hab x hx y hy
  by_cases ha : a.2.2 = true
  · by_cases hb : b.2.2 = true
    · rw [if_pos ha] at hx
      rw [if_pos hb] at hy
      simp only [Option.mem_def, Option.some.injEq] at hx hy
      subst hx; subst hy
      exact hab
    · rw [if_neg hb] at hy
      simp at hy
  · rw [if_neg ha] at hx
    simp at hx

/-- The invariant satisfied by the initial `indexOf` call of
`getHighlightedSegments`. -/
theorem initialIndex_inv (s c : List Char) :
    ∀ mi, jsIndexOfFrom (toLowerStr s) (toLowerStr c) 0 = some mi →
      0 ≤ mi ∧ mi ≤ s.length ∧ strMatchAt (toLowerStr c) ((toLowerStr s).drop mi) = true := by
  intro mi h
  obtain ⟨_, hle, hm⟩ := jsIndexOfFrom_some h
  have hLs : (toLowerStr s).length = s.length := List.length_map s Char.toLower
  rw [hLs] at hle
  exact ⟨Nat.zero_le _, hle, hm⟩

/-! ### Claim theorems for the segment computer -/

/-- C1: for every input string `s` and comparison string `c`, whenever the
segment computation returns (fuel suffices), concatenating the `text`
fields of all returned segments yields exactly `s`, original casing
included. -/
theorem c1_segments_round_trip (s c : List Char) (fuel : Nat) (out : List Segment)
    (h : getHighlightedSegments s c fuel = some out) :
    (out.map Segment.text).flatten = s := by
  by_cases hs : s = []
  · subst hs
    have h0 : getHighlightedSegments [] c fuel = some [⟨[], false⟩] := by
      simp [getHighlightedSegments]
    rw [h0, Option.some.injEq] at h
    subst h
    simp
  · simp only [getHighlightedSegments, if_neg hs] at h
    exact (segLoop_inv s (toLowerStr c) fuel 0 _ [] out (Nat.zero_le _) (by simp)
      (by simp) (by simp) (initialIndex_inv s c) h).1

theorem c1_segments_round_trip_witness :
    getHighlightedSegments "Example text".data "example".data 14 =
      some [⟨"Example".data, true⟩, ⟨" text".data, false⟩] ∧
    (([(⟨"Example".data, true⟩ : Segment), ⟨" text".data, false⟩].map
        Segment.text).flatten = "Example text".data) :=
  ⟨by decide, c1_segments_round_trip "Example text".data "example".data 14 _ (by decide)⟩

/-- C2 counterexample: with input `"a"` and the empty comparison string the
loop of `getHighlightedSegments` never terminates — no amount of fuel makes
it return.  The source does NOT special-case the empty comparison string:
`indexOf("")` yields `0` forever and `currentIndex` never advances. -/
theorem c2_empty_comparison_diverges :
    ¬ ∃ (fuel : Nat) (out : List Segment),
      getHighlightedSegments "a".data "".data fuel = some out := by
  rintro ⟨fuel, out, h⟩
  have hs : ("a".data : List Char) ≠ [] := by decide
  simp only [getHighlightedSegments, if_neg hs] at h
  have h0 : toLowerStr "".data = ([] : List Char) := rfl
  rw [h0, jsIndexOfFrom_nil_zero, segLoop_empty_comparison] at h
  exact Option.noConfusion h

/-- C2 (amended): the segment computation terminates for every input string
whenever the comparison string is non-empty (fuel `|s| + 2` suffices), and
for the empty input with any comparison string; but the empty comparison
string is NOT special-cased, and with a non-empty input it loops forever
(see the counterexample). -/
theorem c2_segments_terminate (s c : List Char) (hc : c ≠ []) :
    ∃ out, getHighlightedSegments s c (s.length + 2) = some out := by
  by_cases hs : s = []
  · subst hs
    exact ⟨[⟨[], false⟩], by simp [getHighlightedSegments]⟩
  · simp only [getHighlightedSegments, if_neg hs]
    have hlc : toLowerStr c ≠ [] := fun h => hc (List.map_eq_nil_iff.mp h)
    exact segLoop_term s (toLowerStr c) hlc (s.length + 2) 0 _ [] (Nat.zero_le _)
      (initialIndex_inv s c) (by omega)

theorem c2_segments_terminate_witness :
    ("ab".data ≠ ([] : List Char)) ∧
    ∃ out, getHighlightedSegments "abab".data "ab".data ("abab".data.length + 2) = some out :=
  ⟨by decide, c2_segments_terminate "abab".data "ab".data (by decide)⟩

/-- C3: every segment marked matched has text equal to the comparison string
under case-insensitive comparison, and the source-position intervals of the
matched segments (derived from the prefix sums of the segment lengths) are
pairwise non-overlapping. -/
theorem c3_match_fidelity (s c : List Char) (fuel : Nat) (out : List Segment)
    (h : getHighlightedSegments s c fuel = some out) :
    (∀ seg ∈ out, seg.highlight = true → toLowerStr seg.text = toLowerStr c) ∧
    (matchedIntervals out).Pairwise (fun a b => a.2 ≤ b.1) := by
  refine ⟨?_, matchedIntervals_pairwise out⟩
  by_cases hs : s = []
  · subst hs
    have h0 : getHighlightedSegments [] c fuel = some [⟨[], false⟩] := by
      simp [getHighlightedSegments]
    rw [h0, Option.some.injEq] at h
    subst h
    intro seg hmem hh
    simp only [List.mem_singleton] at hmem
    subst hmem
    simp at hh
  · simp only [getHighlightedSegments, if_neg hs] at h
    exact (segLoop_inv s (toLowerStr c) fuel 0 _ [] out (Nat.zero_le _) (by simp)
      (by simp) (by simp) (initialIndex_inv s c) h).2.1

theorem c3_match_fidelity_witness :
    getHighlightedSegments "abAB".data "ab".data 6 =
      some [⟨"ab".data, true⟩, ⟨"AB".data, true⟩] ∧
    ((∀ seg ∈ [(⟨"ab".data, true⟩ : Segment), ⟨"AB".data, true⟩],
        seg.highlight = true → toLowerStr seg.text = toLowerStr "ab".data) ∧
      (matchedIntervals [(⟨"ab".data, true⟩ : Segment), ⟨"AB".data, true⟩]).Pairwise
        (fun a b => a.2 ≤ b.1)) :=
  ⟨by decide, c3_match_fidelity "abAB".data "ab".data 6 _ (by decide)⟩

/-- C9: every returned segment has non-empty text, except that the empty
input yields exactly the single empty unmatched segment. -/
theorem c9_segments_nonempty (s c : List Char) (fuel : Nat) (out : List Segment)
    (h : getHighlightedSegments s c fuel = some out) :
    (s = [] → out = [⟨[], false⟩]) ∧ (s ≠ [] → ∀ seg ∈ out, seg.text ≠ []) := by
  constructor
  · intro hs
    subst hs
    have h0 : getHighlightedSegments [] c fuel = some [⟨[], false⟩] := by
      simp [getHighlightedSegments]
    rw [h0, Option.some.injEq] at h
    exact h.symm
  · intro hs
    by_cases hc : toLowerStr c = []
    · exfalso
      simp only [getHighlightedSegments, if_neg hs] at h
      rw [hc, jsIndexOfFrom_nil_zero, segLoop_empty_comparison] at h
      exact Option.noConfusion h
    · simp only [getHighlightedSegments, if_neg hs] at h
      exact (segLoop_inv s (toLowerStr c) fuel 0 _ [] out (Nat.zero_le _) (by simp)
        (by simp) (by simp) (initialIndex_inv s c) h).2.2 hc

theorem c9_segments_nonempty_witness :
    getHighlightedSegments "xaby".data "ab".data 6 =
      some [⟨"x".data, false⟩, ⟨"ab".data, true⟩, ⟨"y".data, false⟩] ∧
    ("xaby".data ≠ ([] : List Char)) ∧
    (∀ seg ∈ [(⟨"x".data, false⟩ : Segment), ⟨"ab".data, true⟩, ⟨"y".data, false⟩],
      seg.text ≠ []) :=
  ⟨by decide, by decide,
    (c9_segments_nonempty "xaby".data "ab".data 6 _ (by decide)).2 (by decide)⟩

/-! ### DOM model

The editable surface is a DOM subtree: text nodes and element nodes
(spans).  `highlighted` models the `data-highlighted` attribute set on
matched-segment spans.  Node identity is modelled by the node's path
(list of child indices) from the surface root. -/

mutual
inductive DomNode where
  | text (s : List Char)
  | elem (highlighted : Bool) (children : NodeList)
inductive NodeList where
  | nil
  | cons (hd : DomNode) (tl : NodeList)
end

/-- Shift a (path, text) pair one sibling to the right (instrumentation for
node identity; text content is untouched). -/
def bumpPath : (List Nat × List Char) → (List Nat × List Char)
  | (j :: p, str) => ((j + 1) :: p, str)
  | ([], str) => ([], str)

mutual
/-- `findLastTextNode` (source lines 226-242): recursively searches the
node's children from the last child backwards and returns the first text
node found (i.e. the last text node in document order), as its path from
the given node together with its text. -/
def findLastTextNode : DomNode → Option (List Nat × List Char)
  | .text s => some ([], s)
  | .elem _ cs => findLastIn cs
def findLastIn : NodeList → Option (List Nat × List Char)
  | .nil => none
  | .cons c rest =>
    match findLastIn rest with
    | some r => some (bumpPath r)
    | none => (findLastTextNode c).map fun r => (0 :: r.1, r.2)
end

mutual
/-- All text nodes below a node, in document order, with their paths. -/
def textNodesOf : DomNode → List (List Nat × List Char)
  | .text s => [([], s)]
  | .elem _ cs => textNodesIn cs
def textNodesIn : NodeList → List (List Nat × List Char)
  | .nil => []
  | .cons c rest =>
    (textNodesOf c).map (fun r => (0 :: r.1, r.2)) ++ (textNodesIn rest).map bumpPath
end

/-- DOM `textContent` of a node list: concatenation of all descendant
text nodes in document order. -/
def textContentList (cs : NodeList) : List Char :=
  ((textNodesIn cs).map fun r => r.2).flatten

/-- Total text length below a node list. -/
def totalTextLen (cs : NodeList) : Nat :=
  ((textNodesIn cs).map fun r => r.2.length).sum

/-- Where `setCursorToPosition` ends up placing the selection start. -/
inductive CaretTarget where
  /-- `range.setStart(node, offset)` on the text node at `path` whose
  content is `content`. -/
  | atText (path : List Nat) (content : List Char) (offset : Nat)
  /-- Fallback `range.setStart(inputRef.current, 0)` (no text nodes). -/
  | atRoot
  /-- The surface had no children: an empty text node is created and the
  selection is set to `(textNode, 0)` (source lines 153-162). -/
  | newEmptyText
deriving DecidableEq, Repr

/-- The end-of-walk branch of `setCursorToPosition` (source lines 185-196):
place the selection at the very end of the last text node, or at the root
if there is none. -/
def cursorEndBranch (root : DomNode) : CaretTarget :=
  match findLastTextNode root with
  | some (p, str) => .atText p str str.length
  | none => .atRoot

/-- The node walk of `setCursorToPosition` (source lines 164-198): only
top-level nodes are visited, and only top-level TEXT nodes accumulate
length — element nodes are never descended into. -/
def setCursorWalk (root : DomNode) (position : Nat) :
    NodeList → Nat → Nat → CaretTarget
  | .nil, _, _ => cursorEndBranch root
  | .cons c rest, i, currentPos =>
    match c with
    | .text str =>
      if position ≤ currentPos + str.length then
        .atText [i] str (min (position - currentPos) str.length)
      else setCursorWalk root position rest (i + 1) (currentPos + str.length)
    | .elem _ _ => setCursorWalk root position rest (i + 1) currentPos

/-- `setCursorToPosition` (source lines 141-223), modelled after its
`!inputRef.current || !isFocused || isComposing` guard: the computed
selection target for the given surface children and linear position. -/
def setCursorToPosition (children : NodeList) (position : Nat) : CaretTarget :=
  match children with
  | .nil => .newEmptyText
  | .cons _ _ => setCursorWalk (.elem false children) position children 0 0

/-- Inner child walk of `saveCursorPosition` (source lines 93-103): walks
the children of a top-level element, accumulating text lengths, stopping
when the selection anchor (identified by path `[i, j]`) is reached. -/
def saveInner (i : Nat) (anchorPath : List Nat) (anchorOffset : Nat) :
    NodeList → Nat → Nat → Bool × Nat
  | .nil, _, total => (false, total)
  | .cons c rest, j, total =>
    if anchorPath = [i, j] then (true, total + anchorOffset)
    else
      match c with
      | .text str => saveInner i anchorPath anchorOffset rest (j + 1) (total + str.length)
      | .elem _ _ => saveInner i anchorPath anchorOffset rest (j + 1) total

/-- Top-level walk of `saveCursorPosition` (source lines 81-107): walks the
surface's direct children, accumulating text length up to the selection
anchor; descends exactly one level into element children.  If the anchor
is never reached the accumulated total is still returned (the source then
calls `setCursorPosition(totalLength)` unconditionally). -/
def saveWalk (anchorPath : List Nat) (anchorOffset : Nat) :
    NodeList → Nat → Nat → Nat
  | .nil, _, total => total
  | .cons c rest, i, total =>
    if anchorPath = [i] then total + anchorOffset
    else
      match c with
      | .text str => saveWalk anchorPath anchorOffset rest (i + 1) (total + str.length)
      | .elem _ cs =>
        match cs with
        | .nil => saveWalk anchorPath anchorOffset rest (i + 1) total
        | .cons _ _ =>
          match saveInner i anchorPath anchorOffset cs 0 total with
          | (true, t) => t
          | (false, t) => saveWalk anchorPath anchorOffset rest (i + 1) t

/-- `saveCursorPosition` (source lines 74-113), for a selection anchor
inside the surface (the `contains` check): the linear offset stored in
`cursorPosition`. -/
def saveCursorPosition (children : NodeList) (anchorPath : List Nat)
    (anchorOffset : Nat) : Nat :=
  saveWalk anchorPath anchorOffset children 0 0

/-- The linear character offset (in document order over all text nodes) of
a `(path, offset)` selection inside the given children. -/
def linearOffsetAt (children : NodeList) (path : List Nat) (offset : Nat) : Nat :=
  (((textNodesIn children).takeWhile fun r => r.1 ≠ path).map fun r => r.2.length).sum
    + offset

/-! ### Lemmas about the DOM walks -/

theorem bumpPath_snd (r : List Nat × List Char) : (bumpPath r).2 = r.2 := by
  rcases r with ⟨p, str⟩
  cases p <;> rfl

theorem map_snd_lens (f : (List Nat × List Char) → (List Nat × List Char))
    (hf : ∀ r, (f r).2 = r.2) (l : List (List Nat × List Char)) :
    (l.map f).map (fun r => r.2.length) = l.map fun r => r.2.length := by
  rw [List.map_map]
  exact List.map_congr_left fun r _ => by simp [Function.comp, hf r]

theorem totalTextLen_cons_text (str : List Char) (rest : NodeList) :
    totalTextLen (.cons (.text str) rest) = str.length + totalTextLen rest := by
  unfold totalTextLen
  rw [textNodesIn, textNodesOf]
  rw [List.map_append, List.sum_append, map_snd_lens bumpPath bumpPath_snd]
  simp

theorem totalTextLen_cons_elem (hl : Bool) (cs rest : NodeList) :
    totalTextLen (.cons (.elem hl cs) rest) = totalTextLen cs + totalTextLen rest := by
  unfold totalTextLen
  rw [textNodesIn, textNodesOf]
  rw [List.map_append, List.sum_append, map_snd_lens bumpPath bumpPath_snd,
    map_snd_lens (fun r => (0 :: r.1, r.2)) (fun r => rfl)]

mutual
/-- `findLastTextNode` returns exactly the last text node (path and text)
in document order. -/
theorem findLastTextNode_eq : ∀ n : DomNode,
    findLastTextNode n = (textNodesOf n).getLast?
  | .text s => by simp [findLastTextNode, textNodesOf]
  | .elem h cs => by
    rw [findLastTextNode, textNodesOf]
    exact findLastIn_eq cs
theorem findLastIn_eq : ∀ cs : NodeList, findLastIn cs = (textNodesIn cs).getLast?
  | .nil => by simp [findLastIn, textNodesIn]
  | .cons c rest => by
    rw [findLastIn, textNodesIn, findLastIn_eq rest]
    cases htn : textNodesIn rest with
    | nil =>
      simp only [List.getLast?_nil, List.map_nil, List.append_nil]
      rw [findLastTextNode_eq c, List.getLast?_map]
    | cons b bs =>
      have hne : List.map bumpPath (b :: bs) ≠ [] := by simp
      rw [List.getLast?_append_of_ne_nil _ hne, List.getLast?_map]
      cases hgl : (b :: bs).getLast? with
      | none => simp at hgl
      | some r => simp
end

/-- When the target position exceeds the total text length, the top-level
walk of `setCursorToPosition` always falls through to the end branch. -/
theorem setCursorWalk_overflow (root : DomNode) (position : Nat) :
    ∀ (rest : NodeList) (i currentPos : Nat),
      currentPos + totalTextLen rest < position →
      setCursorWalk root position rest i currentPos = cursorEndBranch root
  | .nil, _, _, _ => by rw [setCursorWalk]
  | .cons c rest, i, cp, h => by
    cases c with
    | text str =>
      rw [setCursorWalk]
      rw [totalTextLen_cons_text] at h
      rw [if_neg (by omega)]
      exact setCursorWalk_overflow root position rest (i + 1) (cp + str.length) (by omega)
    | elem hl cs =>
      rw [setCursorWalk]
      rw [totalTextLen_cons_elem] at h
      exact setCursorWalk_overflow root position rest (i + 1) cp (by omega)

/-- Every `atText` selection produced by the walk has its offset bounded by
the target node's text length. -/
theorem setCursorWalk_offset_le (root : DomNode) (position : Nat) :
    ∀ (rest : NodeList) (i currentPos : Nat) (p : List Nat) (str : List Char) (off : Nat),
      setCursorWalk root position rest i currentPos = .atText p str off →
      off ≤ str.length
  | .nil, i, cp, p, str, off, h => by
    rw [setCursorWalk] at h
    unfold cursorEndBranch at h
    cases hf : findLastTextNode root with
    | none => rw [hf] at h; exact absurd h (by simp)
    | some r =>
      rcases r with ⟨p2, s2⟩
      rw [hf] at h
      simp only [CaretTarget.atText.injEq] at h
      obtain ⟨-, rfl, rfl⟩ := h
      exact le_refl _
  | .cons c rest, i, cp, p, str, off, h => by
    cases c with
    | text s2 =>
      rw [setCursorWalk] at h
      by_cases hle : position ≤ cp + s2.length
      · rw [if_pos hle] at h
        simp only [CaretTarget.atText.injEq] at h
        obtain ⟨-, rfl, rfl⟩ := h
        exact Nat.min_le_right _ _
      · rw [if_neg hle] at h
        exact setCursorWalk_offset_le root position rest (i + 1) (cp + s2.length) p str off h
    | elem hl cs =>
      rw [setCursorWalk] at h
      exact setCursorWalk_offset_le root position rest (i + 1) cp p str off h

/-! ### Claim theorems for caret restoration -/

/-- C8: when the requested offset exceeds the total text length of the
surface's content, `setCursorToPosition` places the selection at the very
end (full text length) of the last text node in document order. -/
theorem c8_overflow_selects_last_text (children : NodeList) (position : Nat)
    (p : List Nat) (str : List Char)
    (hpos : totalTextLen children < position)
    (hlast : (textNodesIn children).getLast? = some (p, str)) :
    setCursorToPosition children position = .atText p str str.length := by
  cases children with
  | nil => rw [textNodesIn] at hlast; exact absurd hlast (by simp)
  | cons c rest =>
    rw [setCursorToPosition]
    rw [setCursorWalk_overflow _ _ _ _ _ (by omega)]
    rw [cursorEndBranch, findLastTextNode, findLastIn_eq, hlast]

theorem c8_overflow_selects_last_text_witness :
    (totalTextLen (.cons (.elem true (.cons (.text "ab".data) .nil)) .nil) < 5 ∧
      (textNodesIn (.cons (.elem true (.cons (.text "ab".data) .nil)) .nil)).getLast? =
        some ([0, 0], "ab".data)) ∧
    setCursorToPosition (.cons (.elem true (.cons (.text "ab".data) .nil)) .nil) 5 =
      .atText [0, 0] "ab".data "ab".data.length :=
  ⟨⟨by decide, by decide⟩,
    c8_overflow_selects_last_text _ 5 [0, 0] "ab".data (by decide) (by decide)⟩

/-- C10: whenever `setCursorToPosition` resolves a text-node selection
target, the offset it uses is at most that node's text length (the
`Math.min(offset, nodeLength)` clamp, the end-of-last-text-node branch and
the created-empty-text-node branch all respect this bound). -/
theorem c10_restore_offset_clamped (children : NodeList) (position : Nat)
    (p : List Nat) (str : List Char) (off : Nat)
    (h : setCursorToPosition children position = .atText p str off) :
    off ≤ str.length := by
  cases children with
  | nil => rw [setCursorToPosition] at h; exact absurd h (by simp)
  | cons c rest =>
    rw [setCursorToPosition] at h
    exact setCursorWalk_offset_le _ position _ 0 0 p str off h

theorem c10_restore_offset_clamped_witness :
    setCursorToPosition (.cons (.text "ab".data) .nil) 1 = .atText [0] "ab".data 1 ∧
    (1 : Nat) ≤ "ab".data.length :=
  ⟨by decide, c10_restore_offset_clamped (.cons (.text "ab".data) .nil) 1 [0]
    "ab".data 1 (by decide)⟩

/-- The surface children after a rebuild of the input `"abcd"` against the
comparison `"ab"`: two spans, `<span data-highlighted>ab</span>` and
`<span>cd</span>`. -/
def c4Children : NodeList :=
  .cons (.elem true (.cons (.text "ab".data) .nil))
    (.cons (.elem false (.cons (.text "cd".data) .nil)) .nil)

/-- C4 (code bug): capturing the caret at linear offset 1 (inside the first
span) works, but restoring offset 1 does not return to offset 1 — the
restore walk never descends into element children, finds no top-level text
node, and falls through to the end of the last text node, i.e. linear
offset 4.  Total text length (4) is unchanged by the rebuild, yet the
caret moves from offset 1 to offset 4. -/
theorem c4_caret_restore_jumps_to_end :
    saveCursorPosition c4Children [0, 0] 1 = 1 ∧
    setCursorToPosition c4Children 1 = .atText [1, 0] "cd".data 2 ∧
    linearOffsetAt c4Children [1, 0] 2 = 4 ∧
    linearOffsetAt c4Children [1, 0] 2 ≠ saveCursorPosition c4Children [0, 0] 1 := by
  refine ⟨by decide, by decide, by decide, by decide⟩

/-! ### Widget state machine

The component's handlers (`handleInputChange`, composition handlers,
`handleFocus`, `handleBlur`, `handleComparisonChange`) and the rebuild
`useEffect` (source lines 300-340) as a step function over the widget
state.  `rebuilt` records whether the handler replaced the surface's
children itself (an `innerHTML` write or the span-append loop);
browser-driven edits of a `contentEditable` (carried by the input /
composition-end events) are not component rebuilds.  `caretSet` records
whether the handler moved the selection (`setCursorToPosition`). -/

/-- The placeholder projection rendered on blur with empty text
(source line 356). -/
def placeholderSpan : DomNode :=
  .elem false (.cons (.text "Type something...".data) .nil)

/-- The span projection built by the rebuild effect (source lines 317-331):
one span per segment, `data-highlighted` set on matched ones.  A span whose
`textContent` is set to the empty string has no child text node. -/
def segmentsToDom : List Segment → NodeList
  | [] => .nil
  | seg :: rest =>
    .cons (.elem seg.highlight
      (if seg.text = [] then .nil else .cons (.text seg.text) .nil))
      (segmentsToDom rest)

/-- The React state of the widget plus the live surface children and the
current selection target. -/
structure WidgetState where
  inputText : List Char
  comparisonText : List Char
  isFocused : Bool
  isComposing : Bool
  cursorPosition : Nat
  surface : NodeList
  selection : Option CaretTarget

/-- Result of one event handler run. -/
structure StepResult where
  state : WidgetState
  rebuilt : Bool
  caretSet : Bool

/-- The discrete events the widget reacts to.  Input and composition-end
events carry the browser-mutated surface children and the selection anchor
(path and offset) at the time of the event. -/
inductive WEvent where
  | inputEvt (newDom : NodeList) (anchorPath : List Nat) (anchorOff : Nat)
  | compositionStartEvt
  | compositionEndEvt (newDom : NodeList) (anchorPath : List Nat) (anchorOff : Nat)
  | focusEvt
  | blurEvt
  | comparisonChange (c : List Char)
  | effectRun

/-- One handler run.  Mirrors: `handleInputChange` (source 116-124),
`handleCompositionStart` (127-129), `handleCompositionEnd` (131-138),
`handleFocus` (342-349), `handleBlur` (351-358), `handleComparisonChange`
(69-71) and the rebuild effect (300-340, with the deferred
`setCursorToPosition(pos)` call). -/
def step (e : WEvent) (s : WidgetState) : StepResult :=
  match e with
  | .inputEvt newDom anchorPath anchorOff =>
    if s.isComposing then
      ⟨⟨s.inputText, s.comparisonText, s.isFocused, s.isComposing, s.cursorPosition,
        newDom, s.selection⟩, false, false⟩
    else
      ⟨⟨textContentList newDom, s.comparisonText, s.isFocused, s.isComposing,
        saveCursorPosition newDom anchorPath anchorOff, newDom, s.selection⟩, false, false⟩
  | .compositionStartEvt =>
    ⟨⟨s.inputText, s.comparisonText, s.isFocused, true, s.cursorPosition,
      s.surface, s.selection⟩, false, false⟩
  | .compositionEndEvt newDom anchorPath anchorOff =>
    ⟨⟨textContentList newDom, s.comparisonText, s.isFocused, false,
      saveCursorPosition newDom anchorPath anchorOff, newDom, s.selection⟩, false, false⟩
  | .focusEvt =>
    if s.inputText = [] then
      ⟨⟨s.inputText, s.comparisonText, true, s.isComposing, s.cursorPosition,
        .nil, s.selection⟩, true, false⟩
    else
      ⟨⟨s.inputText, s.comparisonText, true, s.isComposing, s.cursorPosition,
        s.surface, s.selection⟩, false, false⟩
  | .blurEvt =>
    if s.inputText = [] then
      ⟨⟨s.inputText, s.comparisonText, false, s.isComposing, s.cursorPosition,
        .cons placeholderSpan .nil, s.selection⟩, true, false⟩
    else
      ⟨⟨s.inputText, s.comparisonText, false, s.isComposing, s.cursorPosition,
        s.surface, s.selection⟩, false, false⟩
  | .comparisonChange c =>
    ⟨⟨s.inputText, c, s.isFocused, s.isComposing, s.cursorPosition,
      s.surface, s.selection⟩, false, false⟩
  | .effectRun =>
    if s.isComposing then ⟨s, false, false⟩
    else if s.inputText = [] ∧ s.isFocused = false then ⟨s, false, false⟩
    else
      match getHighlightedSegments s.inputText s.comparisonText (s.inputText.length + 2) with
      | none => ⟨s, false, false⟩
      | some segs =>
        let newSurface := segmentsToDom segs
        if s.isFocused then
          ⟨⟨s.inputText, s.comparisonText, s.isFocused, s.isComposing, s.cursorPosition,
            newSurface, some (setCursorToPosition newSurface s.cursorPosition)⟩,
            true, true⟩
        else
          ⟨⟨s.inputText, s.comparisonText, s.isFocused, s.isComposing, s.cursorPosition,
            newSurface, s.selection⟩, true, false⟩

/-- A state in the middle of an input-method composition: composition text
is in the DOM, no text has been committed to `inputText` yet. -/
def c5State : WidgetState :=
  ⟨[], "e".data, true, true, 0, .cons (.text "あ".data) .nil, none⟩

/-- C5 counterexample: a blur event arriving during a composition while
`inputText` is empty replaces the surface's children with the placeholder
projection — a component-driven rebuild while `composing` is true,
contradicting "no rebuild occurs between composition-start and
composition-end regardless of intervening focus-state changes". -/
theorem c5_blur_during_composition_rebuilds :
    c5State.isComposing = true ∧ (step .blurEvt c5State).rebuilt = true := by decide

/-- C5 (amended): while a composition is in progress, input events,
comparison-text changes, rebuild-effect runs and further
composition-starts neither rebuild the surface nor move the caret, and the
composition stays in progress; only `handleFocus`/`handleBlur` with empty
committed input escape the guard (see the counterexample). -/
theorem c5_composition_guard (s : WidgetState) (h : s.isComposing = true)
    (newDom : NodeList) (anchorPath : List Nat) (anchorOff : Nat) (c : List Char) :
    ((step (.inputEvt newDom anchorPath anchorOff) s).rebuilt = false ∧
      (step (.inputEvt newDom anchorPath anchorOff) s).caretSet = false) ∧
    ((step (.comparisonChange c) s).rebuilt = false ∧
      (step (.comparisonChange c) s).caretSet = false) ∧
    ((step .effectRun s).rebuilt = false ∧ (step .effectRun s).caretSet = false) ∧
    ((step .compositionStartEvt s).rebuilt = false ∧
      (step .compositionStartEvt s).caretSet = false) ∧
    (step (.inputEvt newDom anchorPath anchorOff) s).state.isComposing = true ∧
    (step (.comparisonChange c) s).state.isComposing = true ∧
    (step .effectRun s).state.isComposing = true := by
  simp [step, h]

theorem c5_composition_guard_witness :
    c5State.isComposing = true ∧
    ((step .effectRun c5State).rebuilt = false ∧
      (step .effectRun c5State).caretSet = false) :=
  ⟨by decide, (c5_composition_guard c5State (by decide) .nil [] 0 []).2.2.1⟩

/-! ### Tooltip controller -/

/-- `TooltipState` (source lines 5-10). -/
structure TooltipState where
  visible : Bool
  x : Int
  y : Int
  text : List Char
deriving DecidableEq, Repr

/-- A bounding client rectangle (coordinates modelled as integers). -/
structure Rect where
  left : Int
  right : Int
  top : Int
  bottom : Int
deriving DecidableEq, Repr

/-- A rendered `span[data-highlighted="true"]` element together with its
bounding rectangle from layout. -/
structure HSpan where
  rect : Rect
  content : List Char
deriving DecidableEq, Repr

/-- The mutable tooltip-related state: the tooltip React state and the
pending debounced show (`tooltipTimeoutRef`), carrying the payload the
timeout would apply. -/
structure MouseState where
  tooltip : TooltipState
  pending : Option TooltipState
deriving DecidableEq, Repr

/-- One `handleDocumentMouseMove` run: the new tooltip-related state plus
whether the handler performed the hit-test at all. -/
structure MouseMoveResult where
  state : MouseState
  hitTested : Bool
deriving DecidableEq, Repr

/-- The hit-test of source lines 253-259. -/
def rectContains (r : Rect) (cx cy : Int) : Bool :=
  decide (r.left ≤ cx) && decide (cx ≤ r.right) &&
    decide (r.top ≤ cy) && decide (cy ≤ r.bottom)

/-- The fixed tooltip message (source line 279): the span's text in quotes
followed by the fixed explanatory sentence. -/
def tooltipMessageFor (content : List Char) : List Char :=
  "\"".data ++ content ++
    "\" この文章だとどのような意図で他の2団体を並べたかという観点で曖昧なので、他の2団体の並びについては考慮していない旨を書くほうがいいかと思われます。\"".data

/-- The tooltip payload the debounced show would apply (source lines
274-281): anchored to the horizontal centre and top of the span's
rectangle. -/
def tooltipFor (sp : HSpan) (scrollX scrollY : Int) : TooltipState :=
  ⟨true, sp.rect.left + scrollX + (sp.rect.right - sp.rect.left) / 2,
    sp.rect.top + scrollY + 17, tooltipMessageFor sp.content⟩

/-- `handleDocumentMouseMove` (source lines 245-285): early return while
composing; otherwise hit-test the highlighted spans (first containing span
wins), always cancel any pending debounced show, then either schedule a new
debounced show (hit) or hide the tooltip immediately (miss). -/
def handleDocumentMouseMove (isComposing : Bool) (spans : List HSpan)
    (cx cy scrollX scrollY : Int) (st : MouseState) : MouseMoveResult :=
  if isComposing then ⟨st, false⟩
  else
    match spans.find? fun sp => rectContains sp.rect cx cy with
    | some sp => ⟨⟨st.tooltip, some (tooltipFor sp scrollX scrollY)⟩, true⟩
    | none => ⟨⟨⟨false, st.tooltip.x, st.tooltip.y, st.tooltip.text⟩, none⟩, true⟩

/-- A visible tooltip with no pending show. -/
def c6MouseState : MouseState := ⟨⟨true, 0, 0, "m".data⟩, none⟩

/-- C6 counterexample: a pointer-move during composition leaves an already
visible tooltip visible — the tooltip is NOT "kept hidden for the duration
of the composition", it is merely left untouched. -/
theorem c6_tooltip_not_hidden_during_composition :
    ¬ (handleDocumentMouseMove true [] 0 0 0 0 c6MouseState).state.tooltip.visible = false := by
  decide

/-- C6 (amended): while a composition is in progress every pointer-move
skips hit-testing entirely and leaves the whole tooltip state — visibility
and any pending debounced show — unchanged (so a visible tooltip stays
visible and a pending show is not cancelled). -/
theorem c6_composition_mousemove_noop (spans : List HSpan) (cx cy sx sy : Int)
    (st : MouseState) :
    handleDocumentMouseMove true spans cx cy sx sy st = ⟨st, false⟩ := rfl

/-- C7: a pointer-move (not during composition) whose hit-test finds no
matched span hides the tooltip synchronously and cancels any pending
debounced show, so no residual show can fire for that position. -/
theorem c7_hide_on_miss (spans : List HSpan) (cx cy sx sy : Int) (st : MouseState)
    (h : spans.find? (fun sp => rectContains sp.rect cx cy) = none) :
    (handleDocumentMouseMove false spans cx cy sx sy st).state.tooltip.visible = false ∧
    (handleDocumentMouseMove false spans cx cy sx sy st).state.pending = none ∧
    (handleDocumentMouseMove false spans cx cy sx sy st).hitTested = true := by
  simp [handleDocumentMouseMove, h]

/-- A highlighted span at rectangle `[0,10] × [0,10]`. -/
def c7Spans : List HSpan := [⟨⟨0, 10, 0, 10⟩, "ab".data⟩]

/-- A visible tooltip with a pending debounced show. -/
def c7MouseState : MouseState := ⟨⟨true, 1, 2, "t".data⟩, some ⟨true, 3, 4, "p".data⟩⟩

theorem c7_hide_on_miss_witness :
    c7Spans.find? (fun sp => rectContains sp.rect 50 50) = none ∧
    ((handleDocumentMouseMove false c7Spans 50 50 0 0 c7MouseState).state.tooltip.visible
        = false ∧
      (handleDocumentMouseMove false c7Spans 50 50 0 0 c7MouseState).state.pending = none ∧
      (handleDocumentMouseMove false c7Spans 50 50 0 0 c7MouseState).hitTested = true) :=
  ⟨by decide, c7_hide_on_miss c7Spans 50 50 0 0 c7MouseState (by decide)⟩

end CommAssist
